import Mathlib

/-!
Verification of the image analysis and transformation pipeline of the
img4laser repository (src/js/modules/imageProcessor.js and the algorithms
module src/unnamed/part_001, i.e. algorithms.js).

The JavaScript code operates on `ImageData` values: an RGBA8 buffer
(`Uint8ClampedArray`) together with a width and a height.  We embed a pixel
as four bytes (`Fin 256`, matching the `Uint8ClampedArray` range guarantee)
and an image as a width, a height and a row-major list of pixels.  JavaScript
floating-point arithmetic on pixel values is embedded as exact rational
arithmetic (`ℚ`); `Math.round` is `round` (both are `⌊x + 1/2⌋`), and the
implicit rounding performed by a store into a `Uint8ClampedArray`
(round-half-to-even) is embedded explicitly where the code relies on it.
-/

/-- One RGBA pixel, the unit of a `Uint8ClampedArray` image buffer. -/
structure RGBA where
  r : Fin 256
  g : Fin 256
  b : Fin 256
  a : Fin 256
deriving DecidableEq, Repr, Inhabited

/-- An `ImageData` value: width, height and the row-major RGBA pixel list.
The well-formedness invariant `data.length = width * height` is carried as a
hypothesis by the theorems that need it. -/
structure Image where
  width : ℕ
  height : ℕ
  data : List RGBA
deriving DecidableEq, Repr, Inhabited

/-- The store pattern `Math.max(0, Math.min(255, Math.round(gray)))` of
`applyBrightnessContrast` and `applyLevels`: round first, then clamp. -/
def jsRoundClamp (q : ℚ) : Fin 256 :=
  ⟨(max 0 (min 255 (round q))).toNat, by omega⟩

/-- Round half to even, the conversion a JavaScript `Uint8ClampedArray` store
applies to a non-integral value. -/
def roundHalfEven (q : ℚ) : ℤ :=
  let f := ⌊q⌋
  let r := q - f
  if r < 1/2 then f
  else if 1/2 < r then f + 1
  else if Even f then f else f + 1

/-- The store pattern `Math.min(255, Math.max(0, sum))` followed by a `Uint8ClampedArray` store,
the pattern used by `applySharpening`: clamp first, then the store rounds
half-to-even.  The outer clamp in this embedding is a mathematical no-op
(the rounding of a value in `[0,255]` stays in `[0,255]`) kept only to give
the `Fin 256` bound syntactically. -/
def jsClampedStore (q : ℚ) : Fin 256 :=
  ⟨(max 0 (min 255 (roundHalfEven (min 255 (max 0 q))))).toNat, by omega⟩

/-- Embedding of `invertColors` (algorithms.js): for each pixel, read the red channel as
the gray value, write `255 - gray` to R, G and B; alpha unchanged. -/
def invertColors (img : Image) : Image :=
  { img with data := img.data.map (fun p =>
      let invertedGray : Fin 256 := ⟨255 - p.r.val, by omega⟩
      ⟨invertedGray, invertedGray, invertedGray, p.a⟩) }

/-- Embedding of `applyBrightnessContrast` (imageProcessor.js): per pixel, read the red
channel as gray, add `brightness * 2.55`, scale the deviation from
`anchorGray` by `contrast`, round, clamp, and write to R, G and B; alpha
unchanged. -/
def applyBrightnessContrast (img : Image)
    (brightness contrast : ℚ) (anchorGray : ℚ := 128) : Image :=
  { img with data := img.data.map (fun p =>
      let v := jsRoundClamp
        (((p.r.val : ℚ) + brightness * 2.55 - anchorGray) * contrast
          + anchorGray)
      ⟨v, v, v, p.a⟩) }

/-- Embedding of `calculateHistogram` (imageProcessor.js): 256 bins, counting the red
channel of every pixel (grayscale assumption R=G=B). -/
def calculateHistogram (img : Image) : List ℕ :=
  img.data.foldl (fun h p => h.set p.r.val (h.getD p.r.val 0 + 1))
    (List.replicate 256 0)

section HistogramLemmas

lemma sum_set_getD_add_one (l : List ℕ) (i : ℕ) (h : i < l.length) :
    (l.set i (l.getD i 0 + 1)).sum = l.sum + 1 := by
  induction l generalizing i with
  | nil => simp at h
  | cons x xs ih =>
      cases i with
      | zero => simp [List.getD]; omega
      | succ n =>
          simp only [List.set, List.sum_cons, List.getD_cons_succ]
          rw [ih n (by simpa using h)]
          omega

lemma length_histStep (h : List ℕ) (p : RGBA) :
    (h.set p.r.val (h.getD p.r.val 0 + 1)).length = h.length := by
  simp

lemma calculateHistogram_foldl (data : List RGBA) (acc : List ℕ)
    (hacc : acc.length = 256) :
    (data.foldl (fun h p => h.set p.r.val (h.getD p.r.val 0 + 1)) acc).sum
      = acc.sum + data.length := by
  induction data generalizing acc with
  | nil => simp
  | cons p ps ih =>
      rw [List.foldl_cons, ih _ (by simp [hacc]),
        sum_set_getD_add_one _ _ (by rw [hacc]; exact p.r.isLt)]
      simp; omega

lemma calculateHistogram_sum (img : Image) :
    (calculateHistogram img).sum = img.data.length := by
  rw [calculateHistogram,
    calculateHistogram_foldl _ _ (List.length_replicate 256 0),
    List.sum_replicate]
  simp

lemma calculateHistogram_length_foldl (data : List RGBA) (acc : List ℕ) :
    (data.foldl (fun h p => h.set p.r.val (h.getD p.r.val 0 + 1)) acc).length
      = acc.length := by
  induction data generalizing acc with
  | nil => rfl
  | cons p ps ih => rw [List.foldl_cons, ih]; simp

lemma calculateHistogram_length (img : Image) :
    (calculateHistogram img).length = 256 := by
  rw [calculateHistogram, calculateHistogram_length_foldl,
    List.length_replicate]

end HistogramLemmas

/-- C7: For every non-degenerate image (well-formed RGBA buffer of
`width*height` pixels), the 256-bin histogram computed from it sums to
`width*height`. -/
theorem histogram_sum_eq_size (img : Image)
    (hwf : img.data.length = img.width * img.height) :
    (calculateHistogram img).sum = img.width * img.height := by
  rw [calculateHistogram_sum, hwf]

/-- Witness for C7 on a concrete 2×2 image. -/
theorem histogram_sum_eq_size_witness :
    (calculateHistogram ⟨2, 2, [⟨0,0,0,255⟩, ⟨7,7,7,255⟩, ⟨255,255,255,0⟩,
        ⟨128,128,128,255⟩]⟩).sum = 2 * 2 :=
  histogram_sum_eq_size _ (by decide)

section PixelLemmas

lemma RGBA.ext {p q : RGBA} (hr : p.r = q.r) (hg : p.g = q.g)
    (hb : p.b = q.b) (ha : p.a = q.a) : p = q := by
  cases p; cases q; simp_all

lemma jsRoundClamp_val (q : ℚ) :
    (jsRoundClamp q).val = (max 0 (min 255 (round q))).toNat := rfl

lemma jsRoundClamp_coe (v : Fin 256) : jsRoundClamp ((v.val : ℚ)) = v := by
  apply Fin.ext
  rw [jsRoundClamp_val, round_natCast]
  have := v.isLt
  omega

/-- Evaluation helper: `jsRoundClamp q = n` once `round q` is known. -/
lemma jsRoundClamp_eq (q : ℚ) (k : ℤ) (n : ℕ) (hn : n < 256)
    (hq : round q = k) (hk : (max 0 (min 255 k)).toNat = n) :
    jsRoundClamp q = ⟨n, hn⟩ := by
  apply Fin.ext
  rw [jsRoundClamp_val, hq, hk]

/-- An image is grayscale when every pixel has G and B equal to R, the
invariant every pipeline stage after `convertToGrayscale` maintains. -/
def Image.Grayscale (img : Image) : Prop :=
  ∀ p ∈ img.data, p.g = p.r ∧ p.b = p.r

instance (img : Image) : Decidable img.Grayscale := by
  unfold Image.Grayscale; infer_instance

lemma map_eq_self_of_forall_mem {α : Type} (l : List α) (f : α → α)
    (h : ∀ x ∈ l, f x = x) : l.map f = l := by
  induction l with
  | nil => rfl
  | cons x xs ih =>
      rw [List.map_cons, h x (List.mem_cons_self x xs),
        ih (fun y hy => h y (List.mem_cons_of_mem x hy))]

/-- Evaluation of `applyBrightnessContrast` on a one-pixel image, given the pixel value. -/
lemma applyBC_single (w h : ℕ) (p : RGBA) (br c aG : ℚ) (v : Fin 256)
    (hv : jsRoundClamp (((p.r.val : ℚ) + br * 2.55 - aG) * c + aG) = v) :
    applyBrightnessContrast ⟨w, h, [p]⟩ br c aG = ⟨w, h, [⟨v, v, v, p.a⟩]⟩ := by
  simp only [applyBrightnessContrast, List.map_cons, List.map_nil]
  rw [hv]

end PixelLemmas

/-- C1 counterexample: on a pixel with distinct R, G, B channels, double
inversion replaces G and B by values derived from R alone (both inversions
write `255 - R` to all three channels), so `invert (invert img) ≠ img`. -/
theorem invert_invert_ne_counterexample :
    invertColors (invertColors ⟨1, 1, [⟨10, 100, 200, 7⟩]⟩)
      ≠ (⟨1, 1, [⟨10, 100, 200, 7⟩]⟩ : Image) := by
  decide

/-- C1 (amended): for every grayscale image (G = B = R at each pixel, the
form every image inside the pipeline has), applying `invertColors` twice
returns the original image pixel-exactly, with the alpha channel
preserved. -/
theorem invert_invert_eq_of_grayscale (img : Image) (h : img.Grayscale) :
    invertColors (invertColors img) = img := by
  cases img with
  | mk w ht data =>
      simp only [invertColors, List.map_map]
      congr 1
      refine map_eq_self_of_forall_mem _ _ (fun p hp => ?_)
      obtain ⟨hg, hb⟩ := h p hp
      have hlt := p.r.isLt
      refine RGBA.ext (Fin.ext ?_) (Fin.ext ?_) (Fin.ext ?_) rfl
      · show 255 - (255 - p.r.val) = p.r.val
        omega
      · show 255 - (255 - p.r.val) = p.g.val
        rw [hg]; omega
      · show 255 - (255 - p.r.val) = p.b.val
        rw [hb]; omega

/-- Witness for C1's amended theorem on a concrete grayscale image. -/
theorem invert_invert_eq_of_grayscale_witness :
    invertColors (invertColors ⟨2, 1, [⟨0,0,0,255⟩, ⟨200,200,200,3⟩]⟩)
      = (⟨2, 1, [⟨0,0,0,255⟩, ⟨200,200,200,3⟩]⟩ : Image) :=
  invert_invert_eq_of_grayscale _ (by decide)

/-- C6 counterexample: `applyBrightnessContrast` with the neutral parameters
(brightness 0, contrast 1, anchor 128) still overwrites G and B with the
value computed from R, so on a pixel with distinct channels it is not the
identity. -/
theorem brightness_contrast_neutral_ne_counterexample :
    applyBrightnessContrast ⟨1, 1, [⟨10, 100, 200, 9⟩]⟩ 0 1 128
      ≠ (⟨1, 1, [⟨10, 100, 200, 9⟩]⟩ : Image) := by
  rw [applyBC_single 1 1 ⟨10, 100, 200, 9⟩ 0 1 128 10
    (by
      rw [show ((((10 : Fin 256) : ℕ) : ℚ) + 0 * 2.55 - 128) * 1 + 128
          = (((10 : Fin 256).val : ℕ) : ℚ) by ring]
      exact jsRoundClamp_coe 10)]
  decide

/-- C6 (amended): for every grayscale image (G = B = R at each pixel, the
form the pipeline feeds to this operation),
`applyBrightnessContrast img 0 1.0 128` is the identity transform. -/
theorem brightness_contrast_neutral_identity (img : Image)
    (h : img.Grayscale) :
    applyBrightnessContrast img 0 1 128 = img := by
  cases img with
  | mk w ht data =>
      simp only [applyBrightnessContrast]
      congr 1
      refine map_eq_self_of_forall_mem _ _ (fun p hp => ?_)
      obtain ⟨hg, hb⟩ := h p hp
      have hv : jsRoundClamp (((p.r.val : ℚ) + 0 * 2.55 - 128) * 1 + 128)
          = p.r := by
        rw [show ((p.r.val : ℚ) + 0 * 2.55 - 128) * 1 + 128 = (p.r.val : ℚ)
          by ring]
        exact jsRoundClamp_coe p.r
      refine RGBA.ext hv ?_ ?_ rfl
      · rw [hg]; exact hv
      · rw [hb]; exact hv

/-- Witness for C6's amended theorem on a concrete grayscale image. -/
theorem brightness_contrast_neutral_identity_witness :
    applyBrightnessContrast ⟨1, 2, [⟨35,35,35,0⟩, ⟨255,255,255,255⟩]⟩ 0 1 128
      = (⟨1, 2, [⟨35,35,35,0⟩, ⟨255,255,255,255⟩]⟩ : Image) :=
  brightness_contrast_neutral_identity _ (by decide)

section MapIndexLemmas

lemma getD_map_lt {α β : Type} (l : List α) (f : α → β) (i : ℕ)
    (h : i < l.length) (d : α) (e : β) :
    (l.map f).getD i e = f (l.getD i d) := by
  induction l generalizing i with
  | nil => simp at h
  | cons x xs ih =>
      cases i with
      | zero => simp
      | succ n =>
          simp only [List.map_cons, List.getD_cons_succ]
          exact ih n (by simpa using h)

end MapIndexLemmas

/-- C2 counterexample: `applyBrightnessContrast` does not clamp an
out-of-range contrast (documented range [0.1, 3.0]) to its bound: called
with contrast 5 it produces a different image than with the clamped value 3,
so the raw value was used. -/
theorem params_not_clamped_counterexample :
    applyBrightnessContrast ⟨1, 1, [⟨100, 100, 100, 255⟩]⟩ 0 5 128
      ≠ applyBrightnessContrast ⟨1, 1, [⟨100, 100, 100, 255⟩]⟩ 0 3 128 := by
  rw [applyBC_single 1 1 ⟨100, 100, 100, 255⟩ 0 5 128 ⟨0, by omega⟩
      (jsRoundClamp_eq _ (-12) 0 (by omega)
        (by norm_num [round_eq, show ((100 : Fin 256) : ℕ) = 100 from rfl])
        (by decide)),
    applyBC_single 1 1 ⟨100, 100, 100, 255⟩ 0 3 128 ⟨44, by omega⟩
      (jsRoundClamp_eq _ 44 44 (by omega)
        (by norm_num [round_eq, show ((100 : Fin 256) : ℕ) = 100 from rfl])
        (by decide))]
  decide

/-- C2 (amended): out-of-range numeric parameters are not clamped to their
documented ranges; the operation proceeds with the raw values and only the
final per-pixel result is clamped to [0,255].  Stated for
`applyBrightnessContrast`: for every image and all (possibly out-of-range)
brightness, contrast and anchorGray, every output pixel is the transfer
formula applied with the raw parameter values. -/
theorem params_used_raw_pointwise (img : Image) (br c aG : ℚ) (i : ℕ)
    (hi : i < img.data.length) :
    (applyBrightnessContrast img br c aG).data.getD i default
      = (fun p : RGBA =>
          let v := jsRoundClamp (((p.r.val : ℚ) + br * 2.55 - aG) * c + aG)
          (⟨v, v, v, p.a⟩ : RGBA)) (img.data.getD i default) := by
  simp only [applyBrightnessContrast]
  exact getD_map_lt _ _ _ hi _ _

/-- Witness for C2's amended theorem: a concrete out-of-range call
(contrast 5) evaluated through the theorem. -/
theorem params_used_raw_pointwise_witness :
    (applyBrightnessContrast ⟨1, 1, [⟨100, 100, 100, 255⟩]⟩ 0 5 128).data.getD
        0 default
      = (fun p : RGBA =>
          let v := jsRoundClamp (((p.r.val : ℚ) + 0 * 2.55 - 128) * 5 + 128)
          (⟨v, v, v, p.a⟩ : RGBA))
        ((⟨1, 1, [⟨100, 100, 100, 255⟩]⟩ : Image).data.getD 0 default) :=
  params_used_raw_pointwise ⟨1, 1, [⟨100, 100, 100, 255⟩]⟩ 0 5 128 0 (by decide)

/-- The three image classes of `detectImageType`. -/
inductive ImageType where
  | photo
  | cartoon
  | portrait
deriving DecidableEq, Repr

/-- The accumulation loop of `calculateAdaptiveInLow`: scan histogram bins
from 0 upward while the accumulated dark-pixel count is still below 0.5% of
all pixels; returns `(darkPixelCount, weightedSum, count)`. -/
def darkScan (hist : List ℕ) : ℕ × ℕ × ℕ :=
  let totalPixels := hist.sum
  let targetDarkPixels := totalPixels * 5 / 1000
  (List.range 256).foldl
    (fun s i =>
      if s.1 < targetDarkPixels then
        (s.1 + hist.getD i 0, s.2.1 + i * hist.getD i 0, s.2.2 + hist.getD i 0)
      else s)
    (0, 0, 0)

/-- The rounded average gray value of the darkest ≈0.5% of pixels
(`avgDarkGray` in `calculateAdaptiveInLow`); 0 when no pixel was scanned. -/
def darkestAvgGray (hist : List ℕ) : ℤ :=
  let s := darkScan hist
  if 0 < s.2.2 then round ((s.2.1 : ℚ) / s.2.2) else 0

/-- Embedding of `calculateAdaptiveInLow` (imageProcessor.js): only for cartoon images;
returns the darkest-region average gray unless it is already darker
than 30. -/
def calculateAdaptiveInLow (hist : List ℕ) (imageType : ImageType) : ℤ :=
  if imageType ≠ ImageType.cartoon then 0
  else if darkestAvgGray hist < 30 then 0
  else darkestAvgGray hist

/-- Embedding of `applyLevels` (imageProcessor.js): recomputes the histogram of its input,
raises the black point to the adaptive value for cartoon images, returns the
input unchanged on an invalid range, and otherwise remaps each gray value
linearly from `[finalInLow, inHigh]` to `[outLow, outHigh]` with clamping at
both ends. -/
def applyLevels (img : Image) (inLow inHigh outLow outHigh : ℚ)
    (imageType : ImageType := ImageType.photo) : Image :=
  let histogram := calculateHistogram img
  let adaptiveInLow := calculateAdaptiveInLow histogram imageType
  let finalInLow : ℚ := max inLow (adaptiveInLow : ℚ)
  let inRange := inHigh - finalInLow
  let outRange := outHigh - outLow
  if inRange ≤ 0 ∨ outRange < 0 then img
  else { img with data := img.data.map (fun p =>
      let v := jsRoundClamp (if (p.r.val : ℚ) ≤ finalInLow then outLow
        else if inHigh ≤ (p.r.val : ℚ) then outHigh
        else outLow + (((p.r.val : ℚ) - finalInLow) / inRange) * outRange)
      ⟨v, v, v, p.a⟩) }

/-- C4: for every image and every levels parameter set with
`inHigh ≤ inLow` or `outHigh < outLow`, `applyLevels` returns the input
image unchanged (a no-op, not an error). -/
theorem applyLevels_invalid_range_noop (img : Image)
    (inLow inHigh outLow outHigh : ℚ) (ty : ImageType)
    (h : inHigh ≤ inLow ∨ outHigh < outLow) :
    applyLevels img inLow inHigh outLow outHigh ty = img := by
  have hcond : inHigh - max inLow
        ((calculateAdaptiveInLow (calculateHistogram img) ty : ℤ) : ℚ) ≤ 0
      ∨ outHigh - outLow < 0 := by
    rcases h with h | h
    · left
      have := le_max_left inLow
        ((calculateAdaptiveInLow (calculateHistogram img) ty : ℤ) : ℚ)
      linarith
    · right; linarith
  simp only [applyLevels]
  rw [if_pos hcond]

/-- Witness for C4 on a concrete image with `inHigh ≤ inLow`. -/
theorem applyLevels_invalid_range_noop_witness :
    applyLevels ⟨1, 1, [⟨77, 77, 77, 255⟩]⟩ 200 100 0 255 ImageType.photo
      = (⟨1, 1, [⟨77, 77, 77, 255⟩]⟩ : Image) :=
  applyLevels_invalid_range_noop _ 200 100 0 255 ImageType.photo
    (Or.inl (by norm_num))

/-- C10: for a Cartoon image, `applyLevels` can return the input unchanged
even when `inHigh > inLow`: the effective black point is
`max(inLow, adaptive)` where the adaptive black point is the (rounded)
average gray of the darkest ≈0.5% of pixels whenever that average is ≥ 30,
and once this effective black point reaches `inHigh` the function takes the
invalid-range early return instead of remapping. -/
theorem applyLevels_cartoon_adaptive_noop (img : Image)
    (inLow inHigh outLow outHigh : ℚ)
    (hrange : inLow < inHigh)
    (h30 : 30 ≤ darkestAvgGray (calculateHistogram img))
    (hhit : inHigh
      ≤ max inLow ((darkestAvgGray (calculateHistogram img) : ℤ) : ℚ)) :
    applyLevels img inLow inHigh outLow outHigh ImageType.cartoon = img := by
  have hada : calculateAdaptiveInLow (calculateHistogram img)
      ImageType.cartoon = darkestAvgGray (calculateHistogram img) := by
    rw [calculateAdaptiveInLow, if_neg (by simp), if_neg (by omega)]
  simp only [applyLevels, hada]
  rw [if_pos (Or.inl (by linarith))]

/-- Witness image for C10: 200 pixels, all of gray 50, so the darkest 0.5%
(one pixel's worth, i.e. the whole gray-50 bin) averages to 50 ≥ 30. -/
def imgDark : Image := ⟨20, 10, List.replicate 200 ⟨50, 50, 50, 255⟩⟩

set_option maxRecDepth 10000 in
lemma darkestAvgGray_imgDark : darkestAvgGray (calculateHistogram imgDark) = 50 := by
  have hs : darkScan (calculateHistogram imgDark) = (200, 10000, 200) := by
    decide
  rw [darkestAvgGray, hs]
  norm_num [round_eq]

/-- Witness for C10: with `inLow = 10 < inHigh = 40` but adaptive black
point 50 ≥ 40, `applyLevels` returns the input unchanged. -/
theorem applyLevels_cartoon_adaptive_noop_witness :
    applyLevels imgDark 10 40 0 255 ImageType.cartoon = imgDark :=
  applyLevels_cartoon_adaptive_noop imgDark 10 40 0 255 (by norm_num)
    (by rw [darkestAvgGray_imgDark]; norm_num)
    (by rw [darkestAvgGray_imgDark]
        exact le_trans (by norm_num) (le_max_right 10 ((50 : ℤ) : ℚ)))

/-- A histogram peak as in the `ImageStats` data model: a bin position and
the (smoothed, normalized) height. -/
structure Peak where
  position : ℕ
  height : ℚ
deriving DecidableEq, Repr, Inhabited

/-- The `ImageStats` record consumed by `calculateOptimalAnchorGray`:
mean and standard deviation of the gray values, the detected peaks and the
256-bin histogram. -/
structure ImageStats where
  mean : ℚ
  stdDev : ℚ
  peaks : List Peak
  histogram : List ℕ
deriving Repr, Inhabited

/-- The sort `[...peaks].sort((a, b) => a.position - b.position)`: stable ascending
sort by peak position. -/
def sortPeaks (peaks : List Peak) : List Peak :=
  peaks.mergeSort (fun a b => a.position ≤ b.position)

/-- The median loop of `calculateOptimalAnchorGray`: the first bin at which
the cumulative count reaches half the total pixel count; 128 when the loop
never breaks. -/
def computeMedian (hist : List ℕ) : ℕ :=
  let pixelTotal := hist.sum
  let medianThreshold : ℚ := (pixelTotal : ℚ) / 2
  ((List.range 256).find? (fun i =>
      decide (medianThreshold
        ≤ ((((List.range (i + 1)).map (fun j => hist.getD j 0)).sum : ℕ) : ℚ)))).getD 128

/-- Embedding of `calculateOptimalAnchorGray` (imageProcessor.js): the per-image-type
anchor (contrast pivot) formula, computed from the weighted combination of
median and mean. -/
def calculateOptimalAnchorGray (stats : ImageStats)
    (imageType : ImageType) : ℤ :=
  let median := computeMedian stats.histogram
  let weightedValue : ℚ := (median : ℚ) * 0.5 + stats.mean * 0.5
  match imageType with
  | ImageType.portrait => max (round (weightedValue * 0.6)) 65
  | ImageType.cartoon =>
      let baseResult : ℤ :=
        if 2 ≤ stats.peaks.length then
          let sorted := sortPeaks stats.peaks
          if 50 < ((sorted.getD 1 default).position : ℤ)
              - ((sorted.getD 0 default).position : ℤ) then
            min (round ((((sorted.getD 0 default).position : ℚ)
              + ((sorted.getD 1 default).position : ℚ)) / 2)) 100
          else max (round (weightedValue * 0.62)) 65
        else max (round (weightedValue * 0.62)) 65
      round ((baseResult : ℚ) * 0.35)
  | ImageType.photo =>
      if stats.stdDev < 40 then max (round (weightedValue * 0.66)) 72
      else if 60 < stats.stdDev then max (round (weightedValue * 0.69)) 75
      else max (round (weightedValue * 0.72)) 77

/-- C3: for every `ImageStats` classified as Cartoon, the anchor-gray
calculator returns `round(base*0.35)`, where base is
`min(round((p0+p1)/2), 100)` — `p0, p1` the two lowest peak positions —
when there are at least two peaks and those positions differ by more
than 50, and `max(round(weighted*0.62), 65)` otherwise, with
`weighted = 0.5*median + 0.5*mean`. -/
theorem anchor_gray_cartoon_formula (stats : ImageStats) :
    calculateOptimalAnchorGray stats ImageType.cartoon =
      round (((if 2 ≤ stats.peaks.length ∧
          50 < (((sortPeaks stats.peaks).getD 1 default).position : ℤ)
            - (((sortPeaks stats.peaks).getD 0 default).position : ℤ) then
          min (round (((((sortPeaks stats.peaks).getD 0 default).position : ℚ)
            + (((sortPeaks stats.peaks).getD 1 default).position : ℚ)) / 2))
            100
        else
          max (round (((computeMedian stats.histogram : ℚ) * 0.5
            + stats.mean * 0.5) * 0.62)) 65 : ℤ) : ℚ) * 0.35) := by
  simp only [calculateOptimalAnchorGray]
  by_cases h2 : 2 ≤ stats.peaks.length
  · by_cases h50 : 50 < (((sortPeaks stats.peaks).getD 1 default).position : ℤ)
        - (((sortPeaks stats.peaks).getD 0 default).position : ℤ)
    · simp [h2, h50]
    · simp [h2, h50]
  · simp [h2]

/-- Texture features consumed by `detectImageType`
(`analyzeTextureFeatures` output). -/
structure TextureFeatures where
  colorSimplicity : ℚ
  lowVarianceAreaRatio : ℚ
  colorBlockCount : ℕ
  skinToneRatio : ℚ
deriving Repr, Inhabited

/-- Histogram features consumed by `detectImageType`
(`analyzeHistogramFeatures` output). -/
structure HistogramFeatures where
  peakCount : ℕ
  bwRatio : ℚ
deriving Repr, Inhabited

/-- Edge features consumed by `detectImageType`
(`analyzeEdgeFeatures` output). -/
structure EdgeFeatures where
  distinctEdgeRatio : ℚ
  edgeContrast : ℚ
  longEdgeRatio : ℚ
deriving Repr, Inhabited

/-- The decision cascade of `detectImageType` (imageProcessor.js lines
92-240), over the extracted features, the gray-level standard deviation and
the face-detector outcome.  Rules 1-6 in source order decide "cartoon"; the
face detector is consulted only after all of them fail; every failure of the
detector is caught locally and falls through to "photo". -/
def detectImageTypeCore (tf : TextureFeatures) (hf : HistogramFeatures)
    (ef : EdgeFeatures) (stdDev : ℚ) (faces : Except Unit ℕ) : ImageType :=
  if (hf.peakCount ≤ 3 ∨ hf.peakCount = 0) ∧ 0.8 < hf.bwRatio then
    ImageType.cartoon
  else if 0.95 < tf.lowVarianceAreaRatio
      ∨ (0.92 < tf.lowVarianceAreaRatio ∧ 0.001 < hf.bwRatio) then
    ImageType.cartoon
  else if 0.7 < hf.bwRatio then
    ImageType.cartoon
  else if 0.5 < hf.bwRatio ∧ 0.7 < tf.lowVarianceAreaRatio then
    ImageType.cartoon
  else if (0.15 < ef.longEdgeRatio ∧ tf.colorBlockCount < 10
      ∧ 0.7 < tf.colorSimplicity) ∧ 0.8 < tf.lowVarianceAreaRatio then
    ImageType.cartoon
  else if 0.85 < tf.colorSimplicity ∧ 0.75 < tf.lowVarianceAreaRatio
      ∧ hf.peakCount ≤ 4 then
    ImageType.cartoon
  else if ((0.85 < tf.lowVarianceAreaRatio ∧ 0.01 < hf.bwRatio)
        ∧ (0.04 < ef.distinctEdgeRatio ∧ 50 < ef.edgeContrast))
      ∧ ¬(hf.peakCount = 1 ∧ stdDev < 50)
      ∧ ¬(5 < hf.peakCount)
      ∧ ¬(0.3 < tf.skinToneRatio) then
    ImageType.cartoon
  else
    match faces with
    | Except.error _ => ImageType.photo
    | Except.ok n => if 0 < n then ImageType.portrait else ImageType.photo

/-- C5: the classifier is total and deterministic — for any features and any
face-detector outcome it returns exactly one of photo/cartoon/portrait — and
every face-detector failure is recovered locally: the erroring run returns
exactly what a successful zero-face run returns (the rule-based path,
defaulting to photo, never portrait), so the error never surfaces. -/
theorem detect_image_type_total_and_recovers (tf : TextureFeatures)
    (hf : HistogramFeatures) (ef : EdgeFeatures) (stdDev : ℚ)
    (faces : Except Unit ℕ) (e : Unit) :
    (detectImageTypeCore tf hf ef stdDev faces = ImageType.photo
      ∨ detectImageTypeCore tf hf ef stdDev faces = ImageType.cartoon
      ∨ detectImageTypeCore tf hf ef stdDev faces = ImageType.portrait)
    ∧ detectImageTypeCore tf hf ef stdDev (Except.error e)
        = detectImageTypeCore tf hf ef stdDev (Except.ok 0)
    ∧ detectImageTypeCore tf hf ef stdDev (Except.error e)
        ≠ ImageType.portrait := by
  refine ⟨?_, ?_, ?_⟩
  · rcases h : detectImageTypeCore tf hf ef stdDev faces with _ | _ | _ <;>
      simp
  · unfold detectImageTypeCore
    split_ifs <;> rfl
  · unfold detectImageTypeCore
    split_ifs <;> simp

section StatsLemmas

lemma sum_range_getD (l : List ℕ) :
    ∑ i in Finset.range l.length, l.getD i 0 = l.sum := by
  induction l with
  | nil => simp
  | cons x xs ih =>
      rw [List.length_cons, Finset.sum_range_succ']
      simp only [List.getD_cons_succ, List.getD_cons_zero, ih, List.sum_cons]
      omega

end StatsLemmas

/-- The result record of `calculateImageStats`.  The code stores
`stdDev = sqrt(sumSqDiff / pixelCount)`; since that square root is in
general irrational, the record carries the radicand `stdDevSq` and theorems
state properties of `Real.sqrt stdDevSq`.  The `peaks`/`valleys` fields of
the JavaScript record (delegated to `ImageAlgorithms.analyzeHistogram`) are
not part of the statistics formulas and are omitted here. -/
structure StatsResult where
  mean : ℚ
  stdDevSq : ℚ
  histogram : List ℕ
deriving Repr, Inhabited

/-- Embedding of `calculateImageStats` (imageProcessor.js): mean and standard deviation
of the histogram of the (grayscale) image, with the documented `N = 0`
fallback `mean = 128`, `stdDev = 0`. -/
def calculateImageStats (img : Image) : StatsResult :=
  let histogram := calculateHistogram img
  let graySum : ℚ := ∑ i in Finset.range histogram.length,
    (i : ℚ) * (histogram.getD i 0 : ℚ)
  let pixelCount : ℕ := ∑ i in Finset.range histogram.length,
    histogram.getD i 0
  let mean : ℚ := if 0 < pixelCount then graySum / (pixelCount : ℚ) else 128
  let sumSqDiff : ℚ := ∑ i in Finset.range histogram.length,
    ((i : ℚ) - mean) ^ 2 * (histogram.getD i 0 : ℚ)
  let stdDevSq : ℚ :=
    if 0 < pixelCount then sumSqDiff / (pixelCount : ℚ) else 0
  ⟨mean, stdDevSq, histogram⟩

/-- C8: the stats computation returns `mean = Σ(i·hist[i])/N` and
`stdDev = sqrt(Σ((i-mean)²·hist[i])/N)` for every image with pixel count
`N > 0`, and `mean = 128`, `stdDev = 0` when `N = 0` — a documented
fallback, not an error. -/
theorem image_stats_formulas (img : Image) :
    (0 < img.data.length →
      (calculateImageStats img).mean
        = (∑ i in Finset.range 256,
            (i : ℚ) * ((calculateHistogram img).getD i 0 : ℚ))
          / (img.data.length : ℚ)
      ∧ Real.sqrt ((calculateImageStats img).stdDevSq : ℝ)
        = Real.sqrt (((∑ i in Finset.range 256,
            ((i : ℚ) - (calculateImageStats img).mean) ^ 2
              * ((calculateHistogram img).getD i 0 : ℚ))
          / (img.data.length : ℚ) : ℚ) : ℝ))
    ∧ (img.data.length = 0 →
      (calculateImageStats img).mean = 128
      ∧ Real.sqrt ((calculateImageStats img).stdDevSq : ℝ) = 0) := by
  have hlen := calculateHistogram_length img
  have hN : (∑ i in Finset.range 256, (calculateHistogram img).getD i 0)
      = img.data.length := by
    rw [← hlen, sum_range_getD, calculateHistogram_sum]
  simp only [calculateImageStats, hlen, hN]
  constructor
  · intro hpos
    rw [if_pos hpos, if_pos hpos]
    exact ⟨rfl, rfl⟩
  · intro hzero
    rw [hzero]
    rw [if_neg (by omega), if_neg (by omega)]
    exact ⟨rfl, by simp [Real.sqrt_zero]⟩

/-- Witness image for C8: two pixels with gray values 0 and 2. -/
def imgStatsW : Image := ⟨2, 1, [⟨0, 0, 0, 255⟩, ⟨2, 2, 2, 255⟩]⟩

/-- Witness for C8: the mean formula instantiated on `imgStatsW`, whose
pixel count 2 > 0 discharges the hypothesis. -/
theorem image_stats_formulas_witness :
    (calculateImageStats imgStatsW).mean
      = (∑ i in Finset.range 256,
          (i : ℚ) * ((calculateHistogram imgStatsW).getD i 0 : ℚ))
        / (imgStatsW.data.length : ℚ) :=
  ((image_stats_formulas imgStatsW).1 (by decide)).1

section RangeLemmas

lemma getD_range_lt (n i : ℕ) (h : i < n) (e : ℕ) :
    (List.range n).getD i e = i := by
  rw [List.getD_eq_getElem?_getD, List.getElem?_range h]
  rfl

lemma getD_map_range {α : Type} (f : ℕ → α) (n i : ℕ) (h : i < n) (e : α) :
    ((List.range n).map f).getD i e = f i := by
  rw [getD_map_lt (List.range n) f i (by simpa using h) 0 e,
    getD_range_lt n i h 0]

end RangeLemmas

/-- One 3×3 unsharp-mask convolution sum of `applySharpening`, for one
channel of the pixel at `(x, y)`: kernel `-factor` everywhere except
`1 + 8*factor` at the center, reading from the unmodified source pixels. -/
def sharpenSum (img : Image) (factor : ℚ) (x y : ℕ)
    (ch : RGBA → Fin 256) : ℚ :=
  let pix := fun (yy xx : ℕ) =>
    ((ch (img.data.getD (yy * img.width + xx) default)).val : ℚ)
  pix (y-1) (x-1) * (-factor) + pix (y-1) x * (-factor)
    + pix (y-1) (x+1) * (-factor)
    + pix y (x-1) * (-factor) + pix y x * (1 + 8 * factor)
    + pix y (x+1) * (-factor)
    + pix (y+1) (x-1) * (-factor) + pix (y+1) x * (-factor)
    + pix (y+1) (x+1) * (-factor)

/-- The output pixel of `applySharpening` at flat index `idx`: border pixels
(row/column 0 or max) are copied from source; interior pixels get the
clamped convolution per RGB channel and the source alpha. -/
def sharpenPixel (img : Image) (factor : ℚ) (idx : ℕ) : RGBA :=
  let x := idx % img.width
  let y := idx / img.width
  if x = 0 ∨ x = img.width - 1 ∨ y = 0 ∨ y = img.height - 1 then
    img.data.getD idx default
  else
    ⟨jsClampedStore (sharpenSum img factor x y (fun p => p.r)),
     jsClampedStore (sharpenSum img factor x y (fun p => p.g)),
     jsClampedStore (sharpenSum img factor x y (fun p => p.b)),
     (img.data.getD idx default).a⟩

/-- Embedding of `applySharpening` (algorithms.js): no-op for `amount ≤ 0`, otherwise the
3×3 unsharp mask with `factor = amount/100` on interior pixels and the
source values on border pixels. -/
def applySharpening (img : Image) (amount : ℚ) : Image :=
  if amount ≤ 0 then img
  else { img with data :=
      ((List.range (img.width * img.height)).map
        (sharpenPixel img (amount / 100))) }

/-- C9: sharpening with `amount ≤ 0` returns the input unchanged; for
`amount > 0`, every border pixel (row or column 0 or maximum) of the output
equals the corresponding source pixel, and the alpha channel of every pixel
is unchanged. -/
theorem sharpening_noop_border_alpha (img : Image) (amount : ℚ)
    (hwf : img.data.length = img.width * img.height) :
    (amount ≤ 0 → applySharpening img amount = img)
    ∧ (0 < amount → ∀ idx, idx < img.width * img.height →
        (((idx % img.width = 0 ∨ idx % img.width = img.width - 1
            ∨ idx / img.width = 0 ∨ idx / img.width = img.height - 1) →
          (applySharpening img amount).data.getD idx default
            = img.data.getD idx default)
        ∧ ((applySharpening img amount).data.getD idx default).a
            = (img.data.getD idx default).a)) := by
  constructor
  · intro hle
    simp only [applySharpening]
    rw [if_pos hle]
  · intro hpos idx hidx
    have hdata : (applySharpening img amount).data.getD idx default
        = sharpenPixel img (amount / 100) idx := by
      simp only [applySharpening]
      rw [if_neg (not_le.mpr hpos)]
      exact getD_map_range _ _ _ hidx _
    constructor
    · intro hborder
      rw [hdata, sharpenPixel, if_pos hborder]
    · rw [hdata, sharpenPixel]
      by_cases hborder : idx % img.width = 0
          ∨ idx % img.width = img.width - 1
          ∨ idx / img.width = 0 ∨ idx / img.width = img.height - 1
      · rw [if_pos hborder]
      · rw [if_neg hborder]

/-- Witness image for C9: a 3×3 grayscale ramp. -/
def imgSharpW : Image := ⟨3, 3,
  [⟨10,10,10,255⟩, ⟨20,20,20,254⟩, ⟨30,30,30,253⟩,
   ⟨40,40,40,252⟩, ⟨50,50,50,251⟩, ⟨60,60,60,250⟩,
   ⟨70,70,70,249⟩, ⟨80,80,80,248⟩, ⟨90,90,90,247⟩]⟩

/-- Witness for C9: no-op at amount 0, border copy at index 1 (row 0) and
alpha preservation at the interior index 4, all on `imgSharpW` with
amount 50. -/
theorem sharpening_noop_border_alpha_witness :
    applySharpening imgSharpW 0 = imgSharpW
    ∧ (applySharpening imgSharpW 50).data.getD 1 default
        = imgSharpW.data.getD 1 default
    ∧ ((applySharpening imgSharpW 50).data.getD 4 default).a
        = (imgSharpW.data.getD 4 default).a :=
  ⟨(sharpening_noop_border_alpha imgSharpW 0 (by decide)).1 (by norm_num),
   ((sharpening_noop_border_alpha imgSharpW 50 (by decide)).2 (by norm_num)
      1 (by decide)).1 (by decide),
   ((sharpening_noop_border_alpha imgSharpW 50 (by decide)).2 (by norm_num)
      4 (by decide)).2⟩
